import Mathlib

/-!
A verification development for `comprehensive_error_analysis.py`, a script
that parses Cisco "show interface" output into per-interface counters,
filters by traffic rate, derives error ratios, and produces ranked report
views.

The embedding is shallow: Python integers become `Nat`, Python float ratios
become `ℚ` (every ratio here is a quotient of integers times 100, and the
program only ever compares ratios against constant thresholds), the
insertion-ordered Python dict becomes an association list whose
insert-or-replace keeps an existing key at its original position, and the
regex dispatch of the line scanner becomes an inductive `Line` type with one
constructor per pattern (the patterns are mutually exclusive on well-formed
device output, and the scanner applies at most one per line).
-/

namespace ErrorAnalysis

/-- The per-interface counters accumulated by the extractor: the dict value
created at an interface-header line, mutated field by field. Mirrors the
dict literal built in `parse_interface_data`. -/
structure InterfaceStats where
  name : String
  input_packets : Nat
  output_packets : Nat
  input_rate : Nat
  output_rate : Nat
  input_errors : Nat
  crc_errors : Nat
  frame_errors : Nat
  overrun_errors : Nat
  ignored_errors : Nat
  abort_errors : Nat
  output_errors : Nat
  underruns : Nat
  input_drops : Nat
  output_drops : Nat
deriving Repr, DecidableEq

/-- The all-zero record installed when a header line for `n` is seen. -/
def initStats (n : String) : InterfaceStats :=
  ⟨n, 0, 0, 0, 0, 0, 0, 0, 0, 0, 0, 0, 0, 0, 0⟩

/-- One input line, as classified by the regex dispatch in
`parse_interface_data`. Each constructor is one of the regexes, carrying its
captured groups; `other` is any line matching none of them. -/
inductive Line where
  | header (n : String)
  | inputRate (n : Nat)
  | outputRate (n : Nat)
  | inputPackets (pkts drops : Nat)
  | outputPackets (pkts drops : Nat)
  | errorStats (ie crc fr ov ig ab : Nat)
  | outputErrors (oe ur : Nat)
  | other (text : String)
deriving Repr, DecidableEq

/-- The scanner's mutable state: the `current_interface` cursor and the
insertion-ordered dict `interface_stats`. -/
structure ParseState where
  current : Option String
  stats : List (String × InterfaceStats)
deriving Repr, DecidableEq

/-- Python dict assignment `d[k] = v`: replace in place when the key is
present (keeping its original position), append otherwise. -/
def dictInsert : List (String × InterfaceStats) → String → InterfaceStats →
    List (String × InterfaceStats)
  | [], k, v => [(k, v)]
  | (k0, v0) :: rest, k, v =>
    if k0 = k then (k0, v) :: rest else (k0, v0) :: dictInsert rest k v

/-- Python dict lookup `d[k]` (first entry with the key; keys are unique by
construction). -/
def dictFind : List (String × InterfaceStats) → String → Option InterfaceStats
  | [], _ => none
  | (k0, v0) :: rest, k => if k0 = k then some v0 else dictFind rest k

/-- Python `k in d`. -/
def containsKey (m : List (String × InterfaceStats)) (k : String) : Bool :=
  (dictFind m k).isSome

/-- Python field mutation `d[k][field] = v`: update the entry stored under
`k` (the first with that key; keys are unique by construction), keep the
rest. -/
def dictUpdate : List (String × InterfaceStats) → String →
    (InterfaceStats → InterfaceStats) → List (String × InterfaceStats)
  | [], _, _ => []
  | (k0, v0) :: rest, k, g =>
    if k0 = k then (k0, g v0) :: rest else (k0, v0) :: dictUpdate rest k g

/-- The field mutation a non-header line performs on the current record. -/
def applyLine (l : Line) (d : InterfaceStats) : InterfaceStats :=
  match l with
  | .header _ => d
  | .inputRate n => { d with input_rate := n }
  | .outputRate n => { d with output_rate := n }
  | .inputPackets pkts drops => { d with input_packets := pkts, input_drops := drops }
  | .outputPackets pkts drops => { d with output_packets := pkts, output_drops := drops }
  | .errorStats ie crc fr ov ig ab =>
    { d with input_errors := ie, crc_errors := crc, frame_errors := fr,
             overrun_errors := ov, ignored_errors := ig, abort_errors := ab }
  | .outputErrors oe ur => { d with output_errors := oe, underruns := ur }
  | .other _ => d

/-- The guard shared by the five statistics branches: the fields are
assigned only under `if current_interface and current_interface in
interface_stats` (Python truthiness of the cursor: set and non-empty). -/
def statUpd (s : ParseState) (g : InterfaceStats → InterfaceStats) : ParseState :=
  match s.current with
  | none => s
  | some c =>
    if c ≠ "" ∧ containsKey s.stats c then
      ⟨some c, dictUpdate s.stats c g⟩
    else s

/-- One step of the scanning loop of `parse_interface_data`. A header line
starts a fresh record for its name (replacing any earlier record with that
name) and sets the cursor; a statistics line updates the current record
under the guard above; an unrecognized line is ignored. -/
def stepLine (s : ParseState) (l : Line) : ParseState :=
  match l with
  | .header n => ⟨some n, dictInsert s.stats n (initStats n)⟩
  | .other _ => s
  | l => statUpd s (applyLine l)

/-- The whole scanning loop, from a given state. -/
def runFrom (s : ParseState) (lines : List Line) : ParseState :=
  lines.foldl stepLine s

/-- The whole scanning loop of `parse_interface_data`, from the initial
state (`current_interface = None`, empty dict). -/
def runLines (lines : List Line) : ParseState :=
  runFrom ⟨none, []⟩ lines

/-- The enriched record built for each surviving interface: all raw
counters plus `total_packets` and the four derived ratios. -/
structure InterfaceData where
  name : String
  input_packets : Nat
  output_packets : Nat
  total_packets : Nat
  input_rate : Nat
  output_rate : Nat
  input_errors : Nat
  crc_errors : Nat
  frame_errors : Nat
  overrun_errors : Nat
  ignored_errors : Nat
  abort_errors : Nat
  output_errors : Nat
  underruns : Nat
  input_drops : Nat
  output_drops : Nat
  error_crc_ratio : ℚ
  error_ratio : ℚ
  crc_ratio : ℚ
  output_error_ratio : ℚ
deriving Repr, DecidableEq

/-- The `InterfaceData(...)` construction in `parse_interface_data`: the
ratio formulas with their division-by-zero guards. -/
def mkInterfaceData (d : InterfaceStats) : InterfaceData :=
  { name := d.name
    input_packets := d.input_packets
    output_packets := d.output_packets
    total_packets := d.input_packets + d.output_packets
    input_rate := d.input_rate
    output_rate := d.output_rate
    input_errors := d.input_errors
    crc_errors := d.crc_errors
    frame_errors := d.frame_errors
    overrun_errors := d.overrun_errors
    ignored_errors := d.ignored_errors
    abort_errors := d.abort_errors
    output_errors := d.output_errors
    underruns := d.underruns
    input_drops := d.input_drops
    output_drops := d.output_drops
    error_crc_ratio :=
      if d.input_packets > 0 then
        (((d.input_errors : ℚ) + (d.crc_errors : ℚ)) / (d.input_packets : ℚ)) * 100
      else 0
    error_ratio :=
      if d.input_packets > 0 then ((d.input_errors : ℚ) / (d.input_packets : ℚ)) * 100
      else 0
    crc_ratio :=
      if d.input_packets > 0 then ((d.crc_errors : ℚ) / (d.input_packets : ℚ)) * 100
      else 0
    output_error_ratio :=
      if d.output_packets > 0 then ((d.output_errors : ℚ) / (d.output_packets : ℚ)) * 100
      else 0 }

/-- The metrics engine of `parse_interface_data`: walk the dict's records in
order, skip any with zero total traffic, skip any whose max 5-minute rate is
below 100000, and enrich the survivors. -/
def computeMetrics (l : List InterfaceStats) : List InterfaceData :=
  l.filterMap (fun d =>
    if d.input_packets + d.output_packets = 0 then none
    else if max d.input_rate d.output_rate < 100000 then none
    else some (mkInterfaceData d))

/-- `parse_interface_data` on successfully read input lines: scan, then run
the metrics engine over the dict's values in insertion order. -/
def parseInterfaces (lines : List Line) : List InterfaceData :=
  computeMetrics ((runLines lines).stats.map Prod.snd)

/-- `parse_interface_data` with its exception boundary: the read step either
yields the file's classified lines or fails (`FileNotFoundError` or any
other exception), and a failure returns the empty list. -/
def parse_interface_data (source : Except String (List Line)) : List InterfaceData :=
  match source with
  | .error _ => []
  | .ok lines => parseInterfaces lines

/-- The severity labels printed by the report views. -/
inductive Severity where
  | CRITICAL
  | HIGH
  | MEDIUM
  | LOW
  | GOOD
deriving Repr, DecidableEq

/-- The severity chain of `print_top_10_analysis` (also used by
`print_top_5_output_errors` on the output-error ratio). -/
def top10Status (r : ℚ) : Severity :=
  if r > 1.0 then .CRITICAL
  else if r > 0.1 then .HIGH
  else if r > 0.01 then .MEDIUM
  else .LOW

/-- The classification chain of `print_complete_analysis`. -/
def completeStatus (i : InterfaceData) : Severity :=
  if i.error_crc_ratio > 0.1 then .CRITICAL
  else if i.error_crc_ratio > 0.01 then .HIGH
  else if i.error_crc_ratio > 0.001 then .MEDIUM
  else if i.input_errors + i.crc_errors > 0 then .LOW
  else .GOOD

/-- The descending comparison handed to the stable sorts: Python
`sorted(key=lambda x: x.error_crc_ratio, reverse=True)` keeps `a` before `b`
exactly when `b`'s key is not greater, i.e. `b.error_crc_ratio ≤
a.error_crc_ratio`. -/
def ratioGE (a b : InterfaceData) : Bool :=
  b.error_crc_ratio ≤ a.error_crc_ratio

/-- Likewise for the output-error view's key. -/
def outputRatioGE (a b : InterfaceData) : Bool :=
  b.output_error_ratio ≤ a.output_error_ratio

/-- `print_top_10_analysis`: keep records with a positive error+CRC ratio,
sort descending by that ratio (stably), take the first ten. -/
def top_10 (interfaces : List InterfaceData) : List InterfaceData :=
  ((interfaces.filter (fun i => 0 < i.error_crc_ratio)).mergeSort ratioGE).take 10

/-- `print_top_5_output_errors`: keep records with a positive output-error
ratio, sort descending by that ratio (stably), take the first five. -/
def top_5_output (interfaces : List InterfaceData) : List InterfaceData :=
  ((interfaces.filter (fun i => 0 < i.output_error_ratio)).mergeSort outputRatioGE).take 5

/-- `print_complete_analysis`: all surviving records, sorted descending by
error+CRC ratio (stably), no pre-filter and no truncation. -/
def all_sorted (interfaces : List InterfaceData) : List InterfaceData :=
  interfaces.mergeSort ratioGE

/-- `sum(i.input_packets for i in interfaces)` and friends: Python `sum`
over a generator is a left fold with `+` from 0. -/
def total_input_packets (interfaces : List InterfaceData) : Nat :=
  interfaces.foldl (fun acc i => acc + i.input_packets) 0

def total_output_packets (interfaces : List InterfaceData) : Nat :=
  interfaces.foldl (fun acc i => acc + i.output_packets) 0

def total_input_errors (interfaces : List InterfaceData) : Nat :=
  interfaces.foldl (fun acc i => acc + i.input_errors) 0

def total_crc_errors (interfaces : List InterfaceData) : Nat :=
  interfaces.foldl (fun acc i => acc + i.crc_errors) 0

def total_output_errors (interfaces : List InterfaceData) : Nat :=
  interfaces.foldl (fun acc i => acc + i.output_errors) 0

def total_input_drops (interfaces : List InterfaceData) : Nat :=
  interfaces.foldl (fun acc i => acc + i.input_drops) 0

def total_output_drops (interfaces : List InterfaceData) : Nat :=
  interfaces.foldl (fun acc i => acc + i.output_drops) 0

/-- The fleet-wide ratio of `print_complete_analysis`, with its
division-by-zero guard. -/
def overall_error_crc_ratio (interfaces : List InterfaceData) : ℚ :=
  if total_input_packets interfaces > 0 then
    (((total_input_errors interfaces : ℚ) + (total_crc_errors interfaces : ℚ)) /
      (total_input_packets interfaces : ℚ)) * 100
  else 0

/-! Concrete records used to instantiate the theorems below. `gi1` is the
spec's scenario interface scaled down: 1000 input packets, one input error,
rate 150000, giving an error+CRC ratio of exactly 0.1. `gi2` is a second
interface with the same counters and a different name. -/

def gi1 : InterfaceStats :=
  { initStats "GigabitEthernet0/1" with
      input_packets := 1000, input_rate := 150000, input_errors := 1 }

def gi2 : InterfaceStats :=
  { initStats "GigabitEthernet0/2" with
      input_packets := 1000, input_rate := 150000, input_errors := 1 }

/-- Membership in the metrics engine's output, characterized: exactly the
enrichments of input records passing both hard filters. Shared helper. -/
theorem mem_computeMetrics (l : List InterfaceStats) (m : InterfaceData) :
    m ∈ computeMetrics l ↔
      ∃ d, d ∈ l ∧ (0 < d.input_packets + d.output_packets ∧
        100000 ≤ max d.input_rate d.output_rate) ∧ m = mkInterfaceData d := by
  simp only [computeMetrics, List.mem_filterMap]
  constructor
  · rintro ⟨d, hd, hf⟩
    by_cases h1 : d.input_packets + d.output_packets = 0
    · simp [h1] at hf
    by_cases h2 : max d.input_rate d.output_rate < 100000
    · simp [h1, h2] at hf
    refine ⟨d, hd, ⟨Nat.pos_of_ne_zero h1, le_of_not_lt h2⟩, ?_⟩
    rw [if_neg h1, if_neg h2] at hf
    exact (Option.some.inj hf).symm
  · rintro ⟨d, hd, ⟨h1, h2⟩, rfl⟩
    refine ⟨d, hd, ?_⟩
    rw [if_neg (Nat.pos_iff_ne_zero.mp h1), if_neg (not_lt.mpr h2)]

/-- C1, counterexample: a record whose error+CRC ratio is exactly 0.1 is
assigned MEDIUM by the top-10 view's severity chain, not HIGH as claimed
(0.1 > 0.1 is false, 0.1 > 0.01 is true). -/
theorem c1_counterexample :
    (mkInterfaceData gi1).error_crc_ratio = 1 / 10 ∧
    top10Status (mkInterfaceData gi1).error_crc_ratio ≠ Severity.HIGH ∧
    top10Status (mkInterfaceData gi1).error_crc_ratio = Severity.MEDIUM := by
  have h : (mkInterfaceData gi1).error_crc_ratio = 1 / 10 := by
    norm_num [mkInterfaceData, gi1, initStats]
  have hts : top10Status ((1 : ℚ) / 10) = Severity.MEDIUM := by
    norm_num [top10Status]
  rw [h, hts]
  exact ⟨rfl, by decide, rfl⟩

/-- C1, amended: in the top-10 error+CRC view's severity classification the
threshold comparisons are strict, so a record whose error_crc_ratio is
exactly 0.1 is assigned MEDIUM — neither CRITICAL nor HIGH. -/
theorem c1_exact_boundary (i : InterfaceData)
    (h : i.error_crc_ratio = 1 / 10) :
    top10Status i.error_crc_ratio = Severity.MEDIUM ∧
    top10Status i.error_crc_ratio ≠ Severity.CRITICAL ∧
    top10Status i.error_crc_ratio ≠ Severity.HIGH := by
  have hts : top10Status ((1 : ℚ) / 10) = Severity.MEDIUM := by
    norm_num [top10Status]
  rw [h, hts]
  exact ⟨rfl, by decide, by decide⟩

/-- C1, witness: the amended boundary fact at the concrete record `gi1`. -/
theorem c1_witness :
    top10Status (mkInterfaceData gi1).error_crc_ratio = Severity.MEDIUM ∧
    top10Status (mkInterfaceData gi1).error_crc_ratio ≠ Severity.CRITICAL ∧
    top10Status (mkInterfaceData gi1).error_crc_ratio ≠ Severity.HIGH :=
  c1_exact_boundary (mkInterfaceData gi1) (by norm_num [mkInterfaceData, gi1, initStats])

/-- C2: an InterfaceMetrics record appears in the metrics engine's output
for a raw record if and only if the raw record has positive total packets
and a max 5-minute rate of at least 100000; records failing either filter
are excluded regardless of their error counters. -/
theorem c2_metrics_membership (l : List InterfaceStats) (m : InterfaceData) :
    m ∈ computeMetrics l ↔
      ∃ d, d ∈ l ∧ (0 < d.input_packets + d.output_packets ∧
        100000 ≤ max d.input_rate d.output_rate) ∧ m = mkInterfaceData d :=
  mem_computeMetrics l m

/-- C3: every record in the metrics engine's output carries the guarded
ratio formulas — each ratio is the corresponding quotient times 100 when its
denominator is positive, and 0 when the denominator is zero. -/
theorem c3_ratio_guards (l : List InterfaceStats) (m : InterfaceData)
    (hm : m ∈ computeMetrics l) :
    (0 < m.input_packets →
      m.error_crc_ratio =
        (((m.input_errors : ℚ) + (m.crc_errors : ℚ)) / (m.input_packets : ℚ)) * 100 ∧
      m.error_ratio = ((m.input_errors : ℚ) / (m.input_packets : ℚ)) * 100 ∧
      m.crc_ratio = ((m.crc_errors : ℚ) / (m.input_packets : ℚ)) * 100) ∧
    (m.input_packets = 0 →
      m.error_crc_ratio = 0 ∧ m.error_ratio = 0 ∧ m.crc_ratio = 0) ∧
    (0 < m.output_packets →
      m.output_error_ratio = ((m.output_errors : ℚ) / (m.output_packets : ℚ)) * 100) ∧
    (m.output_packets = 0 → m.output_error_ratio = 0) := by
  obtain ⟨d, -, -, rfl⟩ := (mem_computeMetrics l m).mp hm
  refine ⟨fun h => ?_, fun h => ?_, fun h => ?_, fun h => ?_⟩ <;>
    simp only [mkInterfaceData] at h ⊢ <;> simp [h]

/-- C3, witness: the guarded formulas applied at the concrete record `gi1`,
whose 1000 input packets discharge the positivity hypothesis. -/
theorem c3_witness :
    (mkInterfaceData gi1).error_crc_ratio =
      ((((mkInterfaceData gi1).input_errors : ℚ) + ((mkInterfaceData gi1).crc_errors : ℚ)) /
        ((mkInterfaceData gi1).input_packets : ℚ)) * 100 :=
  ((c3_ratio_guards [gi1] (mkInterfaceData gi1) (List.Mem.head _)).1 (by decide)).1

/-- C5: the complete ranked view's five-tier classification: CRITICAL above
0.1, HIGH above 0.01, MEDIUM above 0.001, else LOW when any input or CRC
errors exist, else GOOD — thresholds distinct from the top-10 view's. -/
theorem c5_complete_thresholds (i : InterfaceData) :
    ((0.1 : ℚ) < i.error_crc_ratio → completeStatus i = Severity.CRITICAL) ∧
    (i.error_crc_ratio ≤ 0.1 → (0.01 : ℚ) < i.error_crc_ratio →
      completeStatus i = Severity.HIGH) ∧
    (i.error_crc_ratio ≤ 0.01 → (0.001 : ℚ) < i.error_crc_ratio →
      completeStatus i = Severity.MEDIUM) ∧
    (i.error_crc_ratio ≤ 0.001 → 0 < i.input_errors + i.crc_errors →
      completeStatus i = Severity.LOW) ∧
    (i.error_crc_ratio ≤ 0.001 → i.input_errors + i.crc_errors = 0 →
      completeStatus i = Severity.GOOD) := by
  unfold completeStatus
  refine ⟨fun h => ?_, fun h1 h2 => ?_, fun h1 h2 => ?_, fun h1 h2 => ?_, fun h1 h2 => ?_⟩
  · rw [if_pos h]
  · rw [if_neg (not_lt.mpr h1), if_pos h2]
  · rw [if_neg (not_lt.mpr (h1.trans (by norm_num))), if_neg (not_lt.mpr h1), if_pos h2]
  · rw [if_neg (not_lt.mpr (h1.trans (by norm_num))),
      if_neg (not_lt.mpr (h1.trans (by norm_num))), if_neg (not_lt.mpr h1), if_pos h2]
  · rw [if_neg (not_lt.mpr (h1.trans (by norm_num))),
      if_neg (not_lt.mpr (h1.trans (by norm_num))), if_neg (not_lt.mpr h1),
      if_neg (by omega)]

/-- C8: the extractor's degraded-output and tolerance behavior: any
read-time failure caught at the boundary yields the empty interface list,
and a line matching no pattern leaves the scanner's state unchanged (no
error is ever raised inside the scanning loop — every step is total). -/
theorem c8_degraded_output :
    (∀ msg : String, parse_interface_data (Except.error msg) = []) ∧
    (∀ (s : ParseState) (text : String), stepLine s (Line.other text) = s) :=
  ⟨fun _ => rfl, fun _ _ => rfl⟩

/-- Sum of a projection as the scanning fold computes it: handy to rewrite
Python's `sum(...)` left folds into `List.sum` of the mapped field. -/
theorem foldl_add_eq_sum (f : InterfaceData → ℕ) :
    ∀ (l : List InterfaceData) (a : ℕ),
      l.foldl (fun acc i => acc + f i) a = a + (l.map f).sum
  | [], a => by simp
  | i :: rest, a => by
    simp [List.foldl_cons, foldl_add_eq_sum f rest, add_assoc]

/-- C7: each aggregate total is the sum of the corresponding per-record
field across the filtered records, and the fleet-wide ratio is the guarded
quotient of those sums. -/
theorem c7_aggregates (l : List InterfaceData) :
    total_input_packets l = (l.map (fun i => i.input_packets)).sum ∧
    total_output_packets l = (l.map (fun i => i.output_packets)).sum ∧
    total_input_errors l = (l.map (fun i => i.input_errors)).sum ∧
    total_crc_errors l = (l.map (fun i => i.crc_errors)).sum ∧
    total_output_errors l = (l.map (fun i => i.output_errors)).sum ∧
    total_input_drops l = (l.map (fun i => i.input_drops)).sum ∧
    total_output_drops l = (l.map (fun i => i.output_drops)).sum ∧
    overall_error_crc_ratio l =
      (if 0 < (l.map (fun i => i.input_packets)).sum then
        (((((l.map (fun i => i.input_errors)).sum : ℕ) : ℚ) +
          ((((l.map (fun i => i.crc_errors)).sum : ℕ)) : ℚ)) /
            ((((l.map (fun i => i.input_packets)).sum : ℕ)) : ℚ)) * 100
       else 0) := by
  have hip : total_input_packets l = (l.map (fun i => i.input_packets)).sum := by
    rw [total_input_packets, foldl_add_eq_sum, Nat.zero_add]
  have hie : total_input_errors l = (l.map (fun i => i.input_errors)).sum := by
    rw [total_input_errors, foldl_add_eq_sum, Nat.zero_add]
  have hcrc : total_crc_errors l = (l.map (fun i => i.crc_errors)).sum := by
    rw [total_crc_errors, foldl_add_eq_sum, Nat.zero_add]
  refine ⟨hip, ?_, hie, hcrc, ?_, ?_, ?_, ?_⟩
  · rw [total_output_packets, foldl_add_eq_sum, Nat.zero_add]
  · rw [total_output_errors, foldl_add_eq_sum, Nat.zero_add]
  · rw [total_input_drops, foldl_add_eq_sum, Nat.zero_add]
  · rw [total_output_drops, foldl_add_eq_sum, Nat.zero_add]
  · rw [overall_error_crc_ratio, hip, hie, hcrc]

/-- Transitivity of the descending error+CRC comparison. -/
theorem ratioGE_trans (a b c : InterfaceData) :
    ratioGE a b → ratioGE b c → ratioGE a c := by
  simp only [ratioGE, decide_eq_true_eq]
  exact fun h1 h2 => h2.trans h1

/-- Totality of the descending error+CRC comparison. -/
theorem ratioGE_total (a b : InterfaceData) : ratioGE a b || ratioGE b a := by
  simp only [ratioGE, Bool.or_eq_true, decide_eq_true_eq]
  exact le_total b.error_crc_ratio a.error_crc_ratio

/-- Transitivity of the descending output-error comparison. -/
theorem outputRatioGE_trans (a b c : InterfaceData) :
    outputRatioGE a b → outputRatioGE b c → outputRatioGE a c := by
  simp only [outputRatioGE, decide_eq_true_eq]
  exact fun h1 h2 => h2.trans h1

/-- Totality of the descending output-error comparison. -/
theorem outputRatioGE_total (a b : InterfaceData) :
    outputRatioGE a b || outputRatioGE b a := by
  simp only [outputRatioGE, Bool.or_eq_true, decide_eq_true_eq]
  exact le_total b.output_error_ratio a.output_error_ratio

/-- C4: the complete ranked view is a permutation of the surviving records,
adjacent (indeed all) pairs descend by error+CRC ratio, and ties keep their
input order: any pair with equal ratio that is a sublist of the input stays
a sublist of the output (stability of the sort). -/
theorem c4_complete_sort (l : List InterfaceData) :
    (all_sorted l).Perm l ∧
    List.Pairwise (fun a b => b.error_crc_ratio ≤ a.error_crc_ratio) (all_sorted l) ∧
    ∀ a b, a.error_crc_ratio = b.error_crc_ratio → List.Sublist [a, b] l →
      List.Sublist [a, b] (all_sorted l) := by
  refine ⟨List.mergeSort_perm l ratioGE, ?_, ?_⟩
  · have h := List.sorted_mergeSort ratioGE_trans ratioGE_total l
    exact h.imp (fun hab => by simpa [ratioGE, decide_eq_true_eq] using hab)
  · intro a b hr hsub
    exact List.pair_sublist_mergeSort ratioGE_trans ratioGE_total
      (by simp [ratioGE, hr]) hsub

/-- C6: the top error+CRC view keeps exactly the records with positive
error+CRC ratio, sorts them descending (stably) and takes the first ten;
the top output-error view keeps the records with positive output-error
ratio, sorts them descending and takes the first five. -/
theorem c6_top_views (l : List InterfaceData) :
    (top_10 l =
        ((l.filter (fun i => 0 < i.error_crc_ratio)).mergeSort ratioGE).take 10 ∧
      (∀ m ∈ top_10 l, 0 < m.error_crc_ratio) ∧ (top_10 l).length ≤ 10) ∧
    (top_5_output l =
        ((l.filter (fun i => 0 < i.output_error_ratio)).mergeSort outputRatioGE).take 5 ∧
      (∀ m ∈ top_5_output l, 0 < m.output_error_ratio) ∧
      (top_5_output l).length ≤ 5) := by
  refine ⟨⟨rfl, ?_, ?_⟩, ⟨rfl, ?_, ?_⟩⟩
  · intro m hm
    have h1 : m ∈ (l.filter (fun i => 0 < i.error_crc_ratio)).mergeSort ratioGE :=
      List.take_subset _ _ hm
    have h2 := (List.mem_filter.mp (List.mem_mergeSort.mp h1)).2
    exact of_decide_eq_true h2
  · simp [top_10, List.length_take]
  · intro m hm
    have h1 : m ∈ (l.filter (fun i => 0 < i.output_error_ratio)).mergeSort outputRatioGE :=
      List.take_subset _ _ hm
    have h2 := (List.mem_filter.mp (List.mem_mergeSort.mp h1)).2
    exact of_decide_eq_true h2
  · simp [top_5_output, List.length_take]

/-! Dictionary lemmas: how lookup, membership and the key sequence behave
under insert-or-replace and under entry update. -/

theorem dictFind_dictInsert_self (m : List (String × InterfaceStats))
    (k : String) (v : InterfaceStats) : dictFind (dictInsert m k v) k = some v := by
  induction m with
  | nil => simp [dictInsert, dictFind]
  | cons p rest ih =>
    obtain ⟨k0, v0⟩ := p
    by_cases h : k0 = k
    · subst h; simp [dictInsert, dictFind]
    · simp [dictInsert, dictFind, h, ih]

theorem dictFind_dictInsert_ne (m : List (String × InterfaceStats))
    (k : String) (v : InterfaceStats) (q : String) (h : q ≠ k) :
    dictFind (dictInsert m k v) q = dictFind m q := by
  induction m with
  | nil => simp [dictInsert, dictFind, Ne.symm h]
  | cons p rest ih =>
    obtain ⟨k0, v0⟩ := p
    by_cases hk : k0 = k
    · subst hk
      simp [dictInsert, dictFind, Ne.symm h]
    · simp [dictInsert, dictFind, hk, ih]

theorem dictFind_dictUpdate_self (m : List (String × InterfaceStats))
    (k : String) (g : InterfaceStats → InterfaceStats) :
    dictFind (dictUpdate m k g) k = (dictFind m k).map g := by
  induction m with
  | nil => simp [dictUpdate, dictFind]
  | cons p rest ih =>
    obtain ⟨k0, v0⟩ := p
    by_cases h : k0 = k
    · subst h; simp [dictUpdate, dictFind]
    · simp [dictUpdate, dictFind, h, ih]

theorem dictFind_dictUpdate_ne (m : List (String × InterfaceStats))
    (k : String) (g : InterfaceStats → InterfaceStats) (q : String) (h : q ≠ k) :
    dictFind (dictUpdate m k g) q = dictFind m q := by
  induction m with
  | nil => simp [dictUpdate, dictFind]
  | cons p rest ih =>
    obtain ⟨k0, v0⟩ := p
    by_cases hk : k0 = k
    · subst hk
      simp [dictUpdate, dictFind, Ne.symm h]
    · simp [dictUpdate, dictFind, hk, ih]

theorem containsKey_dictInsert_self (m : List (String × InterfaceStats))
    (k : String) (v : InterfaceStats) : containsKey (dictInsert m k v) k = true := by
  rw [containsKey, dictFind_dictInsert_self]
  rfl

theorem containsKey_dictUpdate (m : List (String × InterfaceStats))
    (k : String) (g : InterfaceStats → InterfaceStats) (q : String) :
    containsKey (dictUpdate m k g) q = containsKey m q := by
  by_cases h : q = k
  · subst h
    rw [containsKey, containsKey, dictFind_dictUpdate_self]
    cases dictFind m q <;> rfl
  · rw [containsKey, containsKey, dictFind_dictUpdate_ne _ _ _ _ h]

/-- The relation preserved along the scan after a repeated header: both runs
have the same cursor, agree on the record stored under `n`, and their
cursor, when set, points at a present key in both. -/
def SameTail (n : String) (s1 s2 : ParseState) : Prop :=
  s1.current = s2.current ∧
  dictFind s1.stats n = dictFind s2.stats n ∧
  ∀ c, s1.current = some c →
    containsKey s1.stats c = true ∧ containsKey s2.stats c = true

theorem statUpd_none (s : ParseState) (g : InterfaceStats → InterfaceStats)
    (h : s.current = none) : statUpd s g = s := by
  unfold statUpd
  rw [h]

theorem statUpd_some (s : ParseState) (g : InterfaceStats → InterfaceStats)
    (c : String) (h : s.current = some c) :
    statUpd s g =
      if c ≠ "" ∧ containsKey s.stats c then
        ⟨some c, dictUpdate s.stats c g⟩
      else s := by
  unfold statUpd
  rw [h]

theorem sameTail_statUpd (n : String) (s1 s2 : ParseState)
    (g : InterfaceStats → InterfaceStats) (h : SameTail n s1 s2) :
    SameTail n (statUpd s1 g) (statUpd s2 g) := by
  obtain ⟨hc, hn, hmem⟩ := h
  cases hcur : s1.current with
  | none =>
    rw [statUpd_none s1 g hcur, statUpd_none s2 g (hc ▸ hcur)]
    exact ⟨hc, hn, hmem⟩
  | some c =>
    obtain ⟨hm1, hm2⟩ := hmem c hcur
    rw [statUpd_some s1 g c hcur, statUpd_some s2 g c (hc ▸ hcur)]
    by_cases hce : c = ""
    · subst hce
      rw [if_neg (fun hh => hh.1 rfl), if_neg (fun hh => hh.1 rfl)]
      exact ⟨hc, hn, hmem⟩
    · rw [if_pos ⟨hce, hm1⟩, if_pos ⟨hce, hm2⟩]
      refine ⟨rfl, ?_, ?_⟩
      · by_cases hcn : c = n
        · subst hcn
          rw [dictFind_dictUpdate_self, dictFind_dictUpdate_self, hn]
        · rw [dictFind_dictUpdate_ne _ _ _ _ (Ne.symm hcn),
            dictFind_dictUpdate_ne _ _ _ _ (Ne.symm hcn)]
          exact hn
      · intro c2 hc2
        obtain rfl : c = c2 := Option.some.inj hc2
        rw [containsKey_dictUpdate, containsKey_dictUpdate]
        exact ⟨hm1, hm2⟩

theorem sameTail_stepLine (n : String) (s1 s2 : ParseState) (l : Line)
    (h : SameTail n s1 s2) : SameTail n (stepLine s1 l) (stepLine s2 l) := by
  cases l with
  | header m =>
    refine ⟨rfl, ?_, ?_⟩
    · show dictFind (dictInsert s1.stats m (initStats m)) n =
        dictFind (dictInsert s2.stats m (initStats m)) n
      by_cases hm : m = n
      · subst hm
        rw [dictFind_dictInsert_self, dictFind_dictInsert_self]
      · rw [dictFind_dictInsert_ne _ _ _ _ (fun hh => hm hh.symm),
          dictFind_dictInsert_ne _ _ _ _ (fun hh => hm hh.symm)]
        exact h.2.1
    · intro c hc2
      obtain rfl : m = c := Option.some.inj hc2
      exact ⟨containsKey_dictInsert_self _ _ _, containsKey_dictInsert_self _ _ _⟩
  | other t => exact h
  | inputRate k => exact sameTail_statUpd n s1 s2 _ h
  | outputRate k => exact sameTail_statUpd n s1 s2 _ h
  | inputPackets p q => exact sameTail_statUpd n s1 s2 _ h
  | outputPackets p q => exact sameTail_statUpd n s1 s2 _ h
  | errorStats a b c d e f => exact sameTail_statUpd n s1 s2 _ h
  | outputErrors a b => exact sameTail_statUpd n s1 s2 _ h

theorem sameTail_runFrom (n : String) (B : List Line) :
    ∀ (s1 s2 : ParseState), SameTail n s1 s2 →
      SameTail n (runFrom s1 B) (runFrom s2 B) := by
  induction B with
  | nil => exact fun s1 s2 h => h
  | cons l rest ih =>
    intro s1 s2 h
    exact ih (stepLine s1 l) (stepLine s2 l) (sameTail_stepLine n s1 s2 l h)

/-- C9: duplicate headers overwrite. Processing a header line for `n`
installs the all-zero default record for `n` (no merging with an earlier
record) and sets the cursor to `n`; and the record stored under `n` after
scanning any further lines is independent of everything that came before
the header — so when the same name heads two header lines, the final record
holds only what accumulated after the last one. -/
theorem c9_last_header_wins (s t : ParseState) (n : String) (B : List Line) :
    dictFind (runFrom (stepLine s (Line.header n)) B).stats n =
      dictFind (runFrom (stepLine t (Line.header n)) B).stats n ∧
    dictFind (stepLine s (Line.header n)).stats n = some (initStats n) ∧
    (stepLine s (Line.header n)).current = some n := by
  have h0 : SameTail n (stepLine s (Line.header n)) (stepLine t (Line.header n)) := by
    refine ⟨rfl, ?_, ?_⟩
    · show dictFind (dictInsert s.stats n (initStats n)) n =
        dictFind (dictInsert t.stats n (initStats n)) n
      rw [dictFind_dictInsert_self, dictFind_dictInsert_self]
    · intro c hc2
      obtain rfl : n = c := Option.some.inj hc2
      exact ⟨containsKey_dictInsert_self _ _ _, containsKey_dictInsert_self _ _ _⟩
  refine ⟨(sameTail_runFrom n B _ _ h0).2.1, ?_, rfl⟩
  show dictFind (dictInsert s.stats n (initStats n)) n = some (initStats n)
  rw [dictFind_dictInsert_self]

/-- The names on the input's header lines, in input order. -/
def headerNames (lines : List Line) : List String :=
  lines.filterMap (fun l =>
    match l with
    | .header n => some n
    | _ => none)

/-- Each name at its first occurrence: the key order an insertion-ordered
dict builds when assignments to an existing key keep its position. -/
def firstOccurrences (names : List String) : List String :=
  names.foldl (fun acc nm => if nm ∈ acc then acc else acc ++ [nm]) []

theorem keys_dictInsert (m : List (String × InterfaceStats))
    (k : String) (v : InterfaceStats) :
    (dictInsert m k v).map Prod.fst =
      if k ∈ m.map Prod.fst then m.map Prod.fst else m.map Prod.fst ++ [k] := by
  induction m with
  | nil => simp [dictInsert]
  | cons p rest ih =>
    obtain ⟨k0, v0⟩ := p
    by_cases h : k0 = k
    · subst h
      simp [dictInsert]
    · by_cases hm : k ∈ rest.map Prod.fst
      · rw [List.map_cons, if_pos (List.mem_cons_of_mem _ hm)]
        simp only [dictInsert, if_neg h, List.map_cons, ih, if_pos hm]
      · rw [List.map_cons, if_neg (by simp [List.mem_cons, Ne.symm h, hm])]
        simp only [dictInsert, if_neg h, List.map_cons, ih, if_neg hm, List.cons_append]

theorem keys_dictUpdate (m : List (String × InterfaceStats))
    (k : String) (g : InterfaceStats → InterfaceStats) :
    (dictUpdate m k g).map Prod.fst = m.map Prod.fst := by
  induction m with
  | nil => rfl
  | cons p rest ih =>
    obtain ⟨k0, v0⟩ := p
    by_cases h : k0 = k <;> simp [dictUpdate, h, ih]

theorem keys_statUpd (s : ParseState) (g : InterfaceStats → InterfaceStats) :
    (statUpd s g).stats.map Prod.fst = s.stats.map Prod.fst := by
  cases hcur : s.current with
  | none => rw [statUpd_none s g hcur]
  | some c =>
    rw [statUpd_some s g c hcur]
    split
    · exact keys_dictUpdate s.stats c g
    · rfl

theorem runFrom_keys (lines : List Line) :
    ∀ s : ParseState,
      (runFrom s lines).stats.map Prod.fst =
        (headerNames lines).foldl
          (fun acc nm => if nm ∈ acc then acc else acc ++ [nm])
          (s.stats.map Prod.fst) := by
  induction lines with
  | nil => intro s; rfl
  | cons l rest ih =>
    intro s
    cases l with
    | header n =>
      show (runFrom (stepLine s (Line.header n)) rest).stats.map Prod.fst = _
      rw [ih (stepLine s (Line.header n))]
      have hk : (stepLine s (Line.header n)).stats.map Prod.fst =
          if n ∈ s.stats.map Prod.fst then s.stats.map Prod.fst
          else s.stats.map Prod.fst ++ [n] := keys_dictInsert s.stats n (initStats n)
      rw [hk]
      rfl
    | other t => exact ih s
    | inputRate k =>
      show (runFrom (stepLine s (Line.inputRate k)) rest).stats.map Prod.fst = _
      rw [ih (stepLine s (Line.inputRate k))]
      rw [show (stepLine s (Line.inputRate k)).stats.map Prod.fst =
        s.stats.map Prod.fst from keys_statUpd s _]
      rfl
    | outputRate k =>
      show (runFrom (stepLine s (Line.outputRate k)) rest).stats.map Prod.fst = _
      rw [ih (stepLine s (Line.outputRate k))]
      rw [show (stepLine s (Line.outputRate k)).stats.map Prod.fst =
        s.stats.map Prod.fst from keys_statUpd s _]
      rfl
    | inputPackets p q =>
      show (runFrom (stepLine s (Line.inputPackets p q)) rest).stats.map Prod.fst = _
      rw [ih (stepLine s (Line.inputPackets p q))]
      rw [show (stepLine s (Line.inputPackets p q)).stats.map Prod.fst =
        s.stats.map Prod.fst from keys_statUpd s _]
      rfl
    | outputPackets p q =>
      show (runFrom (stepLine s (Line.outputPackets p q)) rest).stats.map Prod.fst = _
      rw [ih (stepLine s (Line.outputPackets p q))]
      rw [show (stepLine s (Line.outputPackets p q)).stats.map Prod.fst =
        s.stats.map Prod.fst from keys_statUpd s _]
      rfl
    | errorStats a b c d e f =>
      show (runFrom (stepLine s (Line.errorStats a b c d e f)) rest).stats.map Prod.fst = _
      rw [ih (stepLine s (Line.errorStats a b c d e f))]
      rw [show (stepLine s (Line.errorStats a b c d e f)).stats.map Prod.fst =
        s.stats.map Prod.fst from keys_statUpd s _]
      rfl
    | outputErrors a b =>
      show (runFrom (stepLine s (Line.outputErrors a b)) rest).stats.map Prod.fst = _
      rw [ih (stepLine s (Line.outputErrors a b))]
      rw [show (stepLine s (Line.outputErrors a b)).stats.map Prod.fst =
        s.stats.map Prod.fst from keys_statUpd s _]
      rfl

/-- Every record in the dict is stored under its own name (the scanner only
ever inserts `(n, initStats n)` and the updates never touch the name). -/
def NameKeyed (m : List (String × InterfaceStats)) : Prop :=
  ∀ p ∈ m, (p.2).name = p.1

theorem applyLine_name (l : Line) (d : InterfaceStats) :
    (applyLine l d).name = d.name := by
  cases l <;> rfl

theorem nameKeyed_dictInsert (m : List (String × InterfaceStats))
    (k : String) (v : InterfaceStats) (h : NameKeyed m) (hv : v.name = k) :
    NameKeyed (dictInsert m k v) := by
  induction m with
  | nil =>
    intro p hp
    simp only [dictInsert, List.mem_singleton] at hp
    subst hp
    exact hv
  | cons p0 rest ih =>
    obtain ⟨k0, v0⟩ := p0
    intro p hp
    by_cases hk : k0 = k
    · subst hk
      simp [dictInsert] at hp
      rcases hp with rfl | hp
      · exact hv
      · exact h p (List.mem_cons_of_mem _ hp)
    · simp [dictInsert, hk] at hp
      rcases hp with rfl | hp
      · exact h (k0, v0) (List.mem_cons_self _ _)
      · exact ih (fun q hq => h q (List.mem_cons_of_mem _ hq)) p hp

theorem nameKeyed_dictUpdate (m : List (String × InterfaceStats))
    (k : String) (g : InterfaceStats → InterfaceStats) (h : NameKeyed m)
    (hg : ∀ v, (g v).name = v.name) : NameKeyed (dictUpdate m k g) := by
  induction m with
  | nil =>
    intro p hp
    simp [dictUpdate] at hp
  | cons p0 rest ih =>
    obtain ⟨k0, v0⟩ := p0
    intro p hp
    by_cases hk : k0 = k
    · subst hk
      simp [dictUpdate] at hp
      rcases hp with rfl | hp
      · show (g v0).name = k0
        rw [hg v0]
        exact h (k0, v0) (List.mem_cons_self _ _)
      · exact h p (List.mem_cons_of_mem _ hp)
    · simp [dictUpdate, hk] at hp
      rcases hp with rfl | hp
      · exact h (k0, v0) (List.mem_cons_self _ _)
      · exact ih (fun q hq => h q (List.mem_cons_of_mem _ hq)) p hp

theorem nameKeyed_statUpd (s : ParseState) (g : InterfaceStats → InterfaceStats)
    (h : NameKeyed s.stats) (hg : ∀ v, (g v).name = v.name) :
    NameKeyed (statUpd s g).stats := by
  cases hcur : s.current with
  | none =>
    rw [statUpd_none s g hcur]
    exact h
  | some c =>
    rw [statUpd_some s g c hcur]
    split
    · exact nameKeyed_dictUpdate s.stats c g h hg
    · exact h

theorem nameKeyed_stepLine (s : ParseState) (l : Line) (h : NameKeyed s.stats) :
    NameKeyed (stepLine s l).stats := by
  cases l with
  | header n => exact nameKeyed_dictInsert s.stats n (initStats n) h rfl
  | other t => exact h
  | inputRate k => exact nameKeyed_statUpd s _ h (fun v => applyLine_name _ v)
  | outputRate k => exact nameKeyed_statUpd s _ h (fun v => applyLine_name _ v)
  | inputPackets p q => exact nameKeyed_statUpd s _ h (fun v => applyLine_name _ v)
  | outputPackets p q => exact nameKeyed_statUpd s _ h (fun v => applyLine_name _ v)
  | errorStats a b c d e f => exact nameKeyed_statUpd s _ h (fun v => applyLine_name _ v)
  | outputErrors a b => exact nameKeyed_statUpd s _ h (fun v => applyLine_name _ v)

theorem nameKeyed_runFrom (lines : List Line) :
    ∀ s : ParseState, NameKeyed s.stats → NameKeyed (runFrom s lines).stats := by
  induction lines with
  | nil => exact fun s h => h
  | cons l rest ih =>
    intro s h
    exact ih (stepLine s l) (nameKeyed_stepLine s l h)

/-- A filterMap whose hits carry the projection of their source is a
sublist of the projected input: order is preserved by filtering. -/
theorem filterMap_proj_sublist (h : InterfaceStats → Option String)
    (g : InterfaceStats → String) (hh : ∀ a, h a = none ∨ h a = some (g a)) :
    ∀ l : List InterfaceStats, List.Sublist (l.filterMap h) (l.map g) := by
  intro l
  induction l with
  | nil => simp
  | cons d rest ih =>
    rcases hh d with hd | hd <;> simp only [List.filterMap_cons, hd, List.map_cons]
    · exact ih.cons _
    · exact ih.cons₂ _

/-- Names of the metrics engine's output, as a sublist of the names of its
input records, in order. -/
theorem names_computeMetrics (l : List InterfaceStats) :
    List.Sublist ((computeMetrics l).map (fun i => i.name))
      (l.map (fun d => d.name)) := by
  rw [computeMetrics, List.map_filterMap]
  apply filterMap_proj_sublist
  intro a
  by_cases h1 : a.input_packets + a.output_packets = 0
  · simp [h1]
  by_cases h2 : max a.input_rate a.output_rate < 100000
  · simp [h1, h2]
  · simp [h1, h2, mkInterfaceData]

/-- C10: the scanner's final mapping lists each interface under its name in
first-occurrence order of the header lines (a later duplicate header
replaces the record but keeps its position), and the list the extractor
returns carries those names in that same order (the engine's filtering only
removes elements) — the deterministic tie order fed to every stable sort
downstream. -/
theorem c10_extraction_order (lines : List Line) :
    (runLines lines).stats.map Prod.fst = firstOccurrences (headerNames lines) ∧
    List.Sublist ((parseInterfaces lines).map (fun i => i.name))
      (firstOccurrences (headerNames lines)) := by
  have hkeys : (runLines lines).stats.map Prod.fst =
      firstOccurrences (headerNames lines) := runFrom_keys lines ⟨none, []⟩
  refine ⟨hkeys, ?_⟩
  rw [← hkeys]
  have hinv : NameKeyed (runLines lines).stats :=
    nameKeyed_runFrom lines ⟨none, []⟩ (fun p hp => absurd hp (List.not_mem_nil p))
  have h1 : ((runLines lines).stats.map Prod.snd).map (fun d => d.name) =
      (runLines lines).stats.map Prod.fst := by
    rw [List.map_map]
    exact List.map_congr_left (fun p hp => hinv p hp)
  exact h1 ▸ names_computeMetrics ((runLines lines).stats.map Prod.snd)

end ErrorAnalysis
